import Mathlib

/-!
Verification of the credential rotation policy of the gcloud-hmac-rotator
repository (`app.py`, `app-dev.py`, `run_local.py`, `test_setup.py`).

The repository rotates HMAC access keys for a storage service account and
stores them in a secret store.  The logic that the claims are about is:

* `disable_old_secret_versions` — filter the listed secret versions to the
  ENABLED ones, sort them by creation time (newest first, Python's stable
  sort), and disable every version past `max_versions_to_keep`
  (Python slice `enabled_versions[self.max_versions_to_keep:]`);
* `cleanup_old_hmac_keys` — sort all listed HMAC keys by `timeCreated`
  ascending (stable), and for every key except the last (newest) that is
  currently `ACTIVE`, request the state update to `INACTIVE`;
* the orchestration pipeline `rotate_hmac_key` / `main` of the two
  variants (`app.py` and `app-dev.py`), modelled as a trace of external
  calls driven by an environment of call outcomes.

Timestamps are modelled as naturals (the source compares RFC3339 strings /
timestamp objects, both totally ordered); identifiers stay strings.
Python's `list.sort` is stable, so it is embedded as a stable insertion
sort on the same key.
-/

/-- State of a secret version (`secretmanager.SecretVersion.State`). -/
inductive SVState where
  | ENABLED
  | DISABLED
  | DESTROYED
deriving DecidableEq, Repr

/-- A secret version as returned by `list_secret_versions`:
`name` (the version identifier), `state`, `create_time`. -/
structure SecretVersion where
  name : String
  state : SVState
  create_time : Nat
deriving DecidableEq, Repr

/-- An HMAC key as returned by `hmacKeys().list`: `accessId`,
`state` (a string, compared against the literal "ACTIVE" in the source),
`timeCreated`. -/
structure HmacKey where
  accessId : String
  state : String
  timeCreated : Nat
deriving DecidableEq, Repr

/-- One step of the stable descending insertion sort on `create_time`:
the embedded counterpart of Python's stable
`enabled_versions.sort(key=lambda x: x.create_time, reverse=True)`.
An element is inserted in front of the first element whose key is ≤ its
own, so among equal keys the earlier-listed element stays first. -/
def insertByTimeDesc (v : SecretVersion) : List SecretVersion → List SecretVersion
  | [] => [v]
  | w :: ws =>
    if w.create_time ≤ v.create_time then v :: w :: ws
    else w :: insertByTimeDesc v ws

/-- Stable sort of secret versions by `create_time`, newest first. -/
def sortByTimeDesc (l : List SecretVersion) : List SecretVersion :=
  l.foldr insertByTimeDesc []

/-- One step of the stable ascending insertion sort on `timeCreated`:
the embedded counterpart of Python's stable
`hmac_keys.sort(key=lambda x: x['timeCreated'])`. -/
def insertByTimeAsc (k : HmacKey) : List HmacKey → List HmacKey
  | [] => [k]
  | w :: ws =>
    if k.timeCreated ≤ w.timeCreated then k :: w :: ws
    else w :: insertByTimeAsc k ws

/-- Stable sort of HMAC keys by `timeCreated`, oldest first. -/
def sortKeysByTimeAsc (l : List HmacKey) : List HmacKey :=
  l.foldr insertByTimeAsc []

/-- Python slice `l[i:]` for an `int` index `i`: for `i ≥ 0` it drops the
first `i` elements; for `i < 0` it keeps the last `min (-i) l.length`
elements. -/
def pySliceFrom (i : Int) (l : List α) : List α :=
  if 0 ≤ i then l.drop i.toNat
  else l.drop (l.length - min l.length (-i).toNat)

/-- The ENABLED versions of a listing, in listing order
(`[v for v in versions if v.state == ... ENABLED]`). -/
def enabledVersions (versions : List SecretVersion) : List SecretVersion :=
  versions.filter (fun v => v.state == SVState.ENABLED)

/-- Number of ENABLED versions in a listing. -/
def keptCountSV (versions : List SecretVersion) : Nat :=
  (enabledVersions versions).length

/-- The versions selected for disabling by `disable_old_secret_versions`
of `app.py`: filter to ENABLED, stable-sort newest first, take the slice
`[max_versions_to_keep:]`. -/
def selectVersionsToDisable (maxKeep : Int) (versions : List SecretVersion) :
    List SecretVersion :=
  pySliceFrom maxKeep (sortByTimeDesc (enabledVersions versions))

/-- The identifiers the disable requests are issued for. -/
def selectVersionNamesToDisable (maxKeep : Int) (versions : List SecretVersion) :
    List String :=
  (selectVersionsToDisable maxKeep versions).map (fun v => v.name)

/-- The versions selected for disabling by `disable_old_secret_versions`
of `app-dev.py`: same computation but guarded by
`if len(enabled_versions) > self.max_versions_to_keep`. -/
def selectVersionsToDisableDev (maxKeep : Int) (versions : List SecretVersion) :
    List SecretVersion :=
  let enabled := sortByTimeDesc (enabledVersions versions)
  if maxKeep < (enabled.length : Int) then pySliceFrom maxKeep enabled else []

/-- The keys `cleanup_old_hmac_keys` iterates the state-update over:
sort all keys by `timeCreated` ascending, drop the last (newest) one
(`hmac_keys[:-1]`), and keep those whose state is the string "ACTIVE";
the whole block is guarded by `if len(hmac_keys) > 1`. -/
def cleanupKeysToInactivate (keys : List HmacKey) : List HmacKey :=
  if 1 < keys.length then
    ((sortKeysByTimeAsc keys).dropLast).filter (fun k => k.state == "ACTIVE")
  else []

/-- The access ids the `update_hmac_key_state(..., 'INACTIVE')` requests
are issued for. -/
def cleanupDemotionIds (keys : List HmacKey) : List String :=
  (cleanupKeysToInactivate keys).map (fun k => k.accessId)

/-- Effect of a granted disable request on one version: the version is
disabled when its name was selected, untouched otherwise. -/
def disableIfSelected (sel : List String) (v : SecretVersion) : SecretVersion :=
  if sel.contains v.name then { v with state := SVState.DISABLED } else v

/-- State of the version listing after all disable requests succeed. -/
def applyDisables (sel : List String) (versions : List SecretVersion) :
    List SecretVersion :=
  versions.map (disableIfSelected sel)

/-- Effect of a granted `update_hmac_key_state(id, 'INACTIVE')` request on
one key. -/
def inactivateIfSelected (sel : List String) (k : HmacKey) : HmacKey :=
  if sel.contains k.accessId then { k with state := "INACTIVE" } else k

/-- State of the key listing after all update requests succeed. -/
def applyKeyUpdates (sel : List String) (keys : List HmacKey) : List HmacKey :=
  keys.map (inactivateIfSelected sel)

/-! ## Pipeline model

The orchestration (`rotate_hmac_key` and `main` of both variants) is
embedded as a function from an environment of external-call outcomes to
the trace of external calls issued plus a success flag / exit code.
A Python exception raised by a step propagates to `main`, which exits 1.
-/

/-- An external call issued by the pipeline. -/
inductive Call where
  | probeBucket
  | getSecret
  | createSecret
  | createHmacKey
  | addSecretVersion
  | listVersions
  | listKeys
  | disableVersion (name : String)
  | updateKeyState (accessId : String) (state : String)
deriving DecidableEq, Repr

/-- Calls that mutate external state (create / add / disable / update). -/
def Call.isMutation : Call → Bool
  | .createSecret => true
  | .createHmacKey => true
  | .addSecretVersion => true
  | .disableVersion _ => true
  | .updateKeyState _ _ => true
  | _ => false

/-- Outcome of the `get_secret` lookup: it can succeed, fail because the
secret is absent, or fail for an unrelated reason such as a missing
permission.  The source's `except Exception` cannot tell the last two
apart. -/
inductive LookupResult where
  | found
  | notFound
  | permError
deriving DecidableEq, Repr

/-- Outcomes of the external collaborators for one pipeline run. -/
structure Env where
  bucketOk : Bool
  getSecret : LookupResult
  createSecretOk : Bool
  createKeyOk : Bool
  addVersionOk : Bool
  versions : List SecretVersion
  keys : List HmacKey
  disableOk : String → Bool
  updateOk : String → Bool

/-- `ensure_secret_exists` (both variants): try `get_secret`; on success
report "already exists"; on ANY failure fall into the `except Exception`
branch and call `create_secret`. -/
def ensureSecretExists (env : Env) : List Call × Bool :=
  match env.getSecret with
  | .found => ([Call.getSecret], true)
  | _ => ([Call.getSecret, Call.createSecret], env.createSecretOk)

/-- The disable loop of `app.py`'s `disable_old_secret_versions`: there is
no per-item handler, so the first failing `disable_secret_version` raises
out of the loop and the remaining versions are not processed. -/
def disableLoopProd (ok : String → Bool) : List String → List Call × Bool
  | [] => ([], true)
  | x :: xs =>
    if ok x then
      let r := disableLoopProd ok xs
      (Call.disableVersion x :: r.1, r.2)
    else ([Call.disableVersion x], false)

/-- `disable_old_secret_versions` of `app.py`: list versions, select, and
run the unguarded disable loop. -/
def disableOldSecretVersionsProd (maxKeep : Int) (env : Env) : List Call × Bool :=
  let r := disableLoopProd env.disableOk (selectVersionNamesToDisable maxKeep env.versions)
  (Call.listVersions :: r.1, r.2)

/-- The disable loop of `app-dev.py`: each `disable_secret_version` call is
wrapped in its own try/except that logs the identifier and continues, so
every selected version receives a disable request and the step always
finishes. -/
def disableLoopDev (names : List String) : List Call :=
  names.map Call.disableVersion

/-- `disable_old_secret_versions` of `app-dev.py`. -/
def disableOldSecretVersionsDev (maxKeep : Int) (env : Env) : List Call × Bool :=
  (Call.listVersions ::
    disableLoopDev ((selectVersionsToDisableDev maxKeep env.versions).map (fun v => v.name)),
   true)

/-- The update loop of `cleanup_old_hmac_keys` (both variants): the
per-key `update_hmac_key_state` has no per-item handler inside the loop,
so a failing update raises and aborts the remaining keys. -/
def keyUpdateLoop (ok : String → Bool) : List String → List Call × Bool
  | [] => ([], true)
  | x :: xs =>
    if ok x then
      let r := keyUpdateLoop ok xs
      (Call.updateKeyState x "INACTIVE" :: r.1, r.2)
    else ([Call.updateKeyState x "INACTIVE"], false)

/-- `cleanup_old_hmac_keys` (both variants): list keys, then update every
selected key to INACTIVE. -/
def cleanupOldHmacKeys (env : Env) : List Call × Bool :=
  let r := keyUpdateLoop env.updateOk (cleanupDemotionIds env.keys)
  (Call.listKeys :: r.1, r.2)

/-- `rotate_hmac_key` of `app.py`: ensure secret → create key → store as
secret version → disable old versions → cleanup old keys.  There is no
bucket verification in this variant.  Any step failure aborts the rest. -/
def rotateProd (maxKeep : Int) (env : Env) : List Call × Bool :=
  let e := ensureSecretExists env
  if e.2 then
    if env.createKeyOk then
      if env.addVersionOk then
        let d := disableOldSecretVersionsProd maxKeep env
        if d.2 then
          let c := cleanupOldHmacKeys env
          (e.1 ++ [Call.createHmacKey, Call.addSecretVersion] ++ d.1 ++ c.1, c.2)
        else (e.1 ++ [Call.createHmacKey, Call.addSecretVersion] ++ d.1, false)
      else (e.1 ++ [Call.createHmacKey, Call.addSecretVersion], false)
    else (e.1 ++ [Call.createHmacKey], false)
  else (e.1, false)

/-- `rotate_hmac_key` of `app-dev.py`: verify bucket access first and
abort on failure, then ensure secret → create key → store → (debug
listing) → disable old versions (per-item failures caught) → (debug
listing) → cleanup old keys. -/
def rotateDev (maxKeep : Int) (env : Env) : List Call × Bool :=
  if env.bucketOk then
    let e := ensureSecretExists env
    if e.2 then
      if env.createKeyOk then
        if env.addVersionOk then
          let d := disableOldSecretVersionsDev maxKeep env
          let c := cleanupOldHmacKeys env
          (Call.probeBucket :: e.1
             ++ [Call.createHmacKey, Call.addSecretVersion, Call.listVersions]
             ++ d.1 ++ [Call.listVersions] ++ c.1, c.2)
        else (Call.probeBucket :: e.1 ++ [Call.createHmacKey, Call.addSecretVersion], false)
      else (Call.probeBucket :: e.1 ++ [Call.createHmacKey], false)
    else (Call.probeBucket :: e.1, false)
  else ([Call.probeBucket], false)

/-- `main` of `app.py`: `__init__` raises `ValueError` when
`SERVICE_ACCOUNT_EMAIL` is unset, before any pipeline call, and `main`
turns any exception into `sys.exit(1)`; otherwise the exit code is 0
exactly when the whole pipeline succeeded. -/
def mainProd (maxKeep : Int) (env : Env) (serviceAccountEmail : Option String) :
    List Call × Nat :=
  match serviceAccountEmail with
  | none => ([], 1)
  | some _ =>
    let r := rotateProd maxKeep env
    (r.1, if r.2 then 0 else 1)

/-- `__init__` of `app-dev.py` resolves the service account: when
`SERVICE_ACCOUNT_EMAIL` is unset it derives
`hmac-rotator@<project>.iam.gserviceaccount.com` instead of raising. -/
def resolveServiceAccountDev (projectId : String) (email : Option String) : String :=
  match email with
  | some e => e
  | none => "hmac-rotator@" ++ projectId ++ ".iam.gserviceaccount.com"

/-- `main` of `app-dev.py`: the resolved service account never aborts the
run; the exit code is 0 exactly when the pipeline succeeded. -/
def mainDev (projectId : String) (serviceAccountEmail : Option String)
    (maxKeep : Int) (env : Env) : List Call × Nat :=
  let _sa := resolveServiceAccountDev projectId serviceAccountEmail
  let r := rotateDev maxKeep env
  (r.1, if r.2 then 0 else 1)

/-! ## Properties of the embedded stable sorts -/

theorem insertByTimeDesc_perm (v : SecretVersion) (l : List SecretVersion) :
    List.Perm (insertByTimeDesc v l) (v :: l) := by
  induction l with
  | nil => exact List.Perm.refl _
  | cons w ws ih =>
    simp only [insertByTimeDesc]
    split
    · exact List.Perm.refl _
    · exact (ih.cons w).trans (List.Perm.swap v w ws)

theorem sortByTimeDesc_perm (l : List SecretVersion) : List.Perm (sortByTimeDesc l) l := by
  induction l with
  | nil => exact List.Perm.refl _
  | cons v vs ih =>
    exact (insertByTimeDesc_perm v (sortByTimeDesc vs)).trans (ih.cons v)

theorem insertByTimeDesc_pairwise (v : SecretVersion) {l : List SecretVersion}
    (h : l.Pairwise (fun a b => b.create_time ≤ a.create_time)) :
    (insertByTimeDesc v l).Pairwise (fun a b => b.create_time ≤ a.create_time) := by
  induction l with
  | nil => simp [insertByTimeDesc]
  | cons w ws ih =>
    rcases List.pairwise_cons.1 h with ⟨hw, hws⟩
    simp only [insertByTimeDesc]
    split
    · rename_i hle
      refine List.pairwise_cons.2 ⟨?_, h⟩
      intro x hx
      rcases List.mem_cons.1 hx with rfl | hx
      · exact hle
      · exact le_trans (hw x hx) hle
    · rename_i hgt
      refine List.pairwise_cons.2 ⟨?_, ih hws⟩
      intro x hx
      rcases List.mem_cons.1 ((insertByTimeDesc_perm v ws).mem_iff.1 hx) with rfl | hx
      · omega
      · exact hw x hx

theorem sortByTimeDesc_pairwise (l : List SecretVersion) :
    (sortByTimeDesc l).Pairwise (fun a b => b.create_time ≤ a.create_time) := by
  induction l with
  | nil => simp [sortByTimeDesc]
  | cons v vs ih => exact insertByTimeDesc_pairwise v ih

/-- Two permuted lists that are both strictly descending in `create_time`
are equal. -/
theorem strictDesc_perm_eq : ∀ {l₁ l₂ : List SecretVersion}, List.Perm l₁ l₂ →
    l₁.Pairwise (fun a b => b.create_time < a.create_time) →
    l₂.Pairwise (fun a b => b.create_time < a.create_time) → l₁ = l₂ := by
  intro l₁
  induction l₁ with
  | nil =>
    intro l₂ hp _ _
    exact hp.symm.eq_nil.symm
  | cons a t₁ ih =>
    intro l₂ hp h₁ h₂
    cases l₂ with
    | nil => exact absurd hp.eq_nil (List.cons_ne_nil a t₁)
    | cons b t₂ =>
      rcases List.pairwise_cons.1 h₁ with ⟨ha, ht₁⟩
      rcases List.pairwise_cons.1 h₂ with ⟨hb, hht₂⟩
      have hab : a = b := by
        by_contra hne
        have ha2 : a ∈ b :: t₂ := hp.mem_iff.1 (List.mem_cons_self a t₁)
        have hb2 : b ∈ a :: t₁ := hp.symm.mem_iff.1 (List.mem_cons_self b t₂)
        have h1 : a ∈ t₂ := by
          rcases List.mem_cons.1 ha2 with h | h
          · exact absurd h hne
          · exact h
        have h2 : b ∈ t₁ := by
          rcases List.mem_cons.1 hb2 with h | h
          · exact absurd h.symm hne
          · exact h
        have hba := hb a h1
        have hab2 := ha b h2
        omega
      subst hab
      rw [ih hp.cons_inv ht₁ hht₂]

theorem insertByTimeAsc_perm (k : HmacKey) (l : List HmacKey) :
    List.Perm (insertByTimeAsc k l) (k :: l) := by
  induction l with
  | nil => exact List.Perm.refl _
  | cons w ws ih =>
    simp only [insertByTimeAsc]
    split
    · exact List.Perm.refl _
    · exact (ih.cons w).trans (List.Perm.swap k w ws)

theorem sortKeysByTimeAsc_perm (l : List HmacKey) : List.Perm (sortKeysByTimeAsc l) l := by
  induction l with
  | nil => exact List.Perm.refl _
  | cons v vs ih =>
    exact (insertByTimeAsc_perm v (sortKeysByTimeAsc vs)).trans (ih.cons v)

/-- Inserting commutes with a map that does not change `timeCreated`. -/
theorem insertByTimeAsc_map (f : HmacKey → HmacKey)
    (hf : ∀ k, (f k).timeCreated = k.timeCreated) (k : HmacKey) :
    ∀ l : List HmacKey, insertByTimeAsc (f k) (l.map f) = (insertByTimeAsc k l).map f := by
  intro l
  induction l with
  | nil => rfl
  | cons w ws ih =>
    simp only [List.map_cons, insertByTimeAsc, hf]
    by_cases hc : k.timeCreated ≤ w.timeCreated
    · simp [hc]
    · simp [hc, ih]

/-- Sorting commutes with a map that does not change `timeCreated`. -/
theorem sortKeysByTimeAsc_map (f : HmacKey → HmacKey)
    (hf : ∀ k, (f k).timeCreated = k.timeCreated) :
    ∀ l : List HmacKey, sortKeysByTimeAsc (l.map f) = (sortKeysByTimeAsc l).map f := by
  intro l
  induction l with
  | nil => rfl
  | cons k ks ih =>
    have h1 : sortKeysByTimeAsc ((k :: ks).map f)
        = insertByTimeAsc (f k) (sortKeysByTimeAsc (ks.map f)) := rfl
    rw [h1, ih, insertByTimeAsc_map f hf]
    rfl

/-- `dropLast` commutes with `map`. -/
theorem map_dropLast' (f : HmacKey → HmacKey) :
    ∀ l : List HmacKey, (l.dropLast).map f = (l.map f).dropLast := by
  intro l
  induction l with
  | nil => rfl
  | cons k ks ih =>
    cases ks with
    | nil => rfl
    | cons w ws => simp [List.dropLast]

/-! ## Counting lemmas for the demotion step -/

/-- The ENABLED count after granting the disable requests counts the
originally ENABLED versions whose name was not selected. -/
theorem keptCount_applyDisables (sel : List String) (l : List SecretVersion) :
    keptCountSV (applyDisables sel l)
      = List.countP (fun v => !(sel.contains v.name)) (enabledVersions l) := by
  show ((List.map (disableIfSelected sel) l).filter (fun v => v.state == SVState.ENABLED)).length
      = List.countP (fun v => !(sel.contains v.name)) (l.filter (fun v => v.state == SVState.ENABLED))
  rw [← List.countP_eq_length_filter, List.countP_map, List.countP_filter]
  apply List.countP_congr
  intro v _
  by_cases hc : sel.contains v.name = true
  · have hm : v.name ∈ sel := by simpa [List.elem_iff] using hc
    simp [Function.comp, disableIfSelected, hc, hm]
  · have hm : v.name ∉ sel := by simpa [List.elem_iff] using hc
    simp [Function.comp, disableIfSelected, hc, hm]

/-- Every element of a list has its own name in the name image, so the
"name not selected" count over the selected list itself is zero. -/
theorem countP_not_own_name (xs : List SecretVersion) :
    List.countP (fun v => !((xs.map (fun v => v.name)).contains v.name)) xs = 0 := by
  rw [List.countP_eq_zero]
  intro v hv
  simp only [Bool.not_eq_true', Bool.not_eq_true]
  have : v.name ∈ xs.map (fun v => v.name) := List.mem_map_of_mem _ hv
  simpa [List.elem_iff] using this

/-- After disabling everything past position `m` of the sorted ENABLED
list, at most `m` versions remain ENABLED (no uniqueness assumption). -/
theorem keptCount_after_disable_le (l : List SecretVersion) (m : Nat) :
    keptCountSV (applyDisables
      (((sortByTimeDesc (enabledVersions l)).drop m).map (fun v => v.name)) l) ≤ m := by
  rw [keptCount_applyDisables, ← (sortByTimeDesc_perm (enabledVersions l)).countP_eq]
  set s := sortByTimeDesc (enabledVersions l) with hs
  set sel := (s.drop m).map (fun v => v.name) with hsel
  have hsplit : List.countP (fun v => !(sel.contains v.name)) s
      = List.countP (fun v => !(sel.contains v.name)) (s.take m)
        + List.countP (fun v => !(sel.contains v.name)) (s.drop m) := by
    conv_lhs => rw [← List.take_append_drop m s]
    rw [List.countP_append]
  have h0 : List.countP (fun v => !(sel.contains v.name)) (s.drop m) = 0 := by
    rw [hsel]
    exact countP_not_own_name (s.drop m)
  rw [hsplit, h0, Nat.add_zero]
  calc List.countP (fun v => !(sel.contains v.name)) (s.take m)
      ≤ (s.take m).length := List.countP_le_length _
    _ ≤ m := by
        rw [List.length_take]
        omega

/-- With unique version names, the ENABLED count after disabling
everything past position `m` of the sorted ENABLED list is exactly
`min (keptCountSV l) m`. -/
theorem keptCount_after_disable_eq (l : List SecretVersion) (m : Nat)
    (hnd : (l.map (fun v => v.name)).Nodup) :
    keptCountSV (applyDisables
      (((sortByTimeDesc (enabledVersions l)).drop m).map (fun v => v.name)) l)
      = min (keptCountSV l) m := by
  have hperm : List.Perm (sortByTimeDesc (enabledVersions l)) (enabledVersions l) :=
    sortByTimeDesc_perm _
  have hnodup : ((sortByTimeDesc (enabledVersions l)).map (fun v => v.name)).Nodup := by
    have h1 : (enabledVersions l).Sublist l := List.filter_sublist l
    have h2 := (h1.map (fun v => v.name)).nodup hnd
    exact ((hperm.map (fun v => v.name)).nodup_iff).2 h2
  rw [keptCount_applyDisables, ← hperm.countP_eq]
  set s := sortByTimeDesc (enabledVersions l) with hs
  set sel := (s.drop m).map (fun v => v.name) with hsel
  have hsplit : List.countP (fun v => !(sel.contains v.name)) s
      = List.countP (fun v => !(sel.contains v.name)) (s.take m)
        + List.countP (fun v => !(sel.contains v.name)) (s.drop m) := by
    conv_lhs => rw [← List.take_append_drop m s]
    rw [List.countP_append]
  have h0 : List.countP (fun v => !(sel.contains v.name)) (s.drop m) = 0 := by
    rw [hsel]
    exact countP_not_own_name (s.drop m)
  have htake : List.countP (fun v => !(sel.contains v.name)) (s.take m)
      = (s.take m).length := by
    rw [List.countP_eq_length]
    intro v hv
    simp only [Bool.not_eq_true']
    have hmemtake : v.name ∈ (s.take m).map (fun v => v.name) :=
      List.mem_map_of_mem _ hv
    have hdisj : v.name ∉ sel := by
      intro hmem
      have hnd2 := hnodup
      rw [← List.take_append_drop m s, List.map_append] at hnd2
      exact (List.disjoint_of_nodup_append hnd2) hmemtake (hsel ▸ hmem)
    simpa [List.elem_iff] using hdisj
  rw [hsplit, h0, htake, Nat.add_zero, List.length_take]
  have hlen : s.length = keptCountSV l := hperm.length_eq
  omega

/-! ## Claim C1 — key cleanup and the sole ACTIVE key -/

/-- Claim C1 is false as stated: with keys
`a` (ACTIVE, created at 1) and `b` (INACTIVE, created at 2), exactly one
key is in the kept (ACTIVE) state, yet `cleanup_old_hmac_keys` demotes
that sole ACTIVE key `a`, because the preserved key is the newest key
overall (`b`), not the newest kept one. -/
theorem claim1_counterexample :
    ((([⟨"a", "ACTIVE", 1⟩, ⟨"b", "INACTIVE", 2⟩] : List HmacKey).filter
        (fun k => k.state == "ACTIVE")).length = 1)
    ∧ cleanupDemotionIds [⟨"a", "ACTIVE", 1⟩, ⟨"b", "INACTIVE", 2⟩] = ["a"] := by
  decide

/-- Claim C1 (amended): the key cleanup never demotes the most recently
created key — the last element of the stable ascending sort — when
access ids are unique, and when the set has at most one key the demotion
result is empty.  (The sole ACTIVE key, however, is demoted whenever a
newer INACTIVE key exists, as the counterexample shows.) -/
theorem claim1_newest_key_never_demoted (keys : List HmacKey)
    (hnd : (keys.map (fun k => k.accessId)).Nodup) (k : HmacKey)
    (hk : (sortKeysByTimeAsc keys).getLast? = some k) :
    k.accessId ∉ cleanupDemotionIds keys
    ∧ (keys.length ≤ 1 → cleanupDemotionIds keys = []) := by
  constructor
  · intro hmem
    unfold cleanupDemotionIds cleanupKeysToInactivate at hmem
    by_cases hlen : 1 < keys.length
    · rw [if_pos hlen] at hmem
      rcases List.mem_map.1 hmem with ⟨k', hk', hid⟩
      have hk'dl : k' ∈ (sortKeysByTimeAsc keys).dropLast := List.mem_of_mem_filter hk'
      have hsplit : (sortKeysByTimeAsc keys).dropLast ++ [k] = sortKeysByTimeAsc keys :=
        List.dropLast_append_getLast? k hk
      have hnodup : ((sortKeysByTimeAsc keys).map (fun k => k.accessId)).Nodup :=
        ((sortKeysByTimeAsc_perm keys).map (fun k => k.accessId)).nodup_iff.2 hnd
      rw [← hsplit, List.map_append] at hnodup
      have hmem1 : k.accessId ∈ (sortKeysByTimeAsc keys).dropLast.map (fun k => k.accessId) := by
        rw [← hid]
        exact List.mem_map_of_mem _ hk'dl
      have hmem2 : k.accessId ∈ [k].map (fun k => k.accessId) := by simp
      exact (List.disjoint_of_nodup_append hnodup) hmem1 hmem2
    · rw [if_neg hlen] at hmem
      simp at hmem
  · intro hle
    unfold cleanupDemotionIds cleanupKeysToInactivate
    have hlt : ¬ 1 < keys.length := by omega
    rw [if_neg hlt]
    rfl

/-- Witness for the amended C1 at a concrete input: with two ACTIVE keys
`a` (older) and `b` (newer), the newest key `b` is not demoted. -/
theorem claim1_newest_key_never_demoted_witness :
    (⟨"b", "ACTIVE", 2⟩ : HmacKey).accessId
        ∉ cleanupDemotionIds [⟨"a", "ACTIVE", 1⟩, ⟨"b", "ACTIVE", 2⟩]
    ∧ (([⟨"a", "ACTIVE", 1⟩, ⟨"b", "ACTIVE", 2⟩] : List HmacKey).length ≤ 1 →
        cleanupDemotionIds [⟨"a", "ACTIVE", 1⟩, ⟨"b", "ACTIVE", 2⟩] = []) :=
  claim1_newest_key_never_demoted [⟨"a", "ACTIVE", 1⟩, ⟨"b", "ACTIVE", 2⟩]
    (by decide) ⟨"b", "ACTIVE", 2⟩ (by decide)

/-! ## Claim C2 — tie-breaking of the version sort -/

/-- Claim C2 is false as stated: the same two ENABLED versions with equal
`create_time`, listed in the two possible orders, give different demotion
selections at retention 1 — Python's stable sort breaks the timestamp tie
by listing position, not by identifier. -/
theorem claim2_counterexample :
    List.Perm [(⟨"b", SVState.ENABLED, 1⟩ : SecretVersion), ⟨"a", SVState.ENABLED, 1⟩]
              [⟨"a", SVState.ENABLED, 1⟩, ⟨"b", SVState.ENABLED, 1⟩]
    ∧ selectVersionNamesToDisable 1
        [⟨"b", SVState.ENABLED, 1⟩, ⟨"a", SVState.ENABLED, 1⟩] = ["a"]
    ∧ selectVersionNamesToDisable 1
        [⟨"a", SVState.ENABLED, 1⟩, ⟨"b", SVState.ENABLED, 1⟩] = ["b"] :=
  ⟨List.Perm.swap _ _ _, by decide, by decide⟩

/-- Claim C2 (amended): the selection sorts kept items by `createdAt`
descending with timestamp ties broken by the original listing position
(stable sort), not by identifier; when the kept items' `createdAt` values
are pairwise distinct, the selection is independent of the listing
order. -/
theorem claim2_selection_listing_invariant (n : Int) (l₁ l₂ : List SecretVersion)
    (hperm : List.Perm l₁ l₂)
    (hd : (enabledVersions l₁).Pairwise (fun a b => a.create_time ≠ b.create_time)) :
    selectVersionsToDisable n l₁ = selectVersionsToDisable n l₂ := by
  have hef : List.Perm (enabledVersions l₁) (enabledVersions l₂) := by
    unfold enabledVersions
    exact hperm.filter _
  have hperm2 : List.Perm (sortByTimeDesc (enabledVersions l₁))
      (sortByTimeDesc (enabledVersions l₂)) :=
    ((sortByTimeDesc_perm _).trans hef).trans (sortByTimeDesc_perm _).symm
  have hd1 : (sortByTimeDesc (enabledVersions l₁)).Pairwise
      (fun a b => a.create_time ≠ b.create_time) :=
    ((sortByTimeDesc_perm _).pairwise_iff (fun h => Ne.symm h)).2 hd
  have hd2 : (sortByTimeDesc (enabledVersions l₂)).Pairwise
      (fun a b => a.create_time ≠ b.create_time) :=
    (hperm2.pairwise_iff (fun h => Ne.symm h)).1 hd1
  have hs1 : (sortByTimeDesc (enabledVersions l₁)).Pairwise
      (fun a b => b.create_time < a.create_time) :=
    ((sortByTimeDesc_pairwise (enabledVersions l₁)).and hd1).imp (fun h => by omega)
  have hs2 : (sortByTimeDesc (enabledVersions l₂)).Pairwise
      (fun a b => b.create_time < a.create_time) :=
    ((sortByTimeDesc_pairwise (enabledVersions l₂)).and hd2).imp (fun h => by omega)
  unfold selectVersionsToDisable
  rw [strictDesc_perm_eq hperm2 hs1 hs2]

/-- Witness for the amended C2 at a concrete input: two listings of the
same versions with distinct timestamps select the same version. -/
theorem claim2_selection_listing_invariant_witness :
    selectVersionsToDisable 1
        [(⟨"a", SVState.ENABLED, 1⟩ : SecretVersion), ⟨"b", SVState.ENABLED, 2⟩]
      = selectVersionsToDisable 1
        [⟨"b", SVState.ENABLED, 2⟩, ⟨"a", SVState.ENABLED, 1⟩] :=
  claim2_selection_listing_invariant 1
    [⟨"a", SVState.ENABLED, 1⟩, ⟨"b", SVState.ENABLED, 2⟩]
    [⟨"b", SVState.ENABLED, 2⟩, ⟨"a", SVState.ENABLED, 1⟩]
    (List.Perm.swap _ _ _) (by decide)

/-! ## Claim C3 — exact demotion count and retention -/

/-- Claim C3: for retention `N ≥ 1` and unique version names, the
demotion step selects exactly `max (0, keptCount − N)` versions — those
past the `N` most recent in the descending sort — and after the disables
are applied exactly `min (keptCount, N)` versions remain ENABLED. -/
theorem claim3_select_count_and_retention (n : Int) (hn : 1 ≤ n)
    (l : List SecretVersion) (hnd : (l.map (fun v => v.name)).Nodup) :
    (selectVersionsToDisable n l).length = keptCountSV l - n.toNat
    ∧ selectVersionsToDisable n l = (sortByTimeDesc (enabledVersions l)).drop n.toNat
    ∧ keptCountSV (applyDisables (selectVersionNamesToDisable n l) l)
        = min (keptCountSV l) n.toNat := by
  have h0 : (0 : Int) ≤ n := by omega
  have hsel : selectVersionsToDisable n l
      = (sortByTimeDesc (enabledVersions l)).drop n.toNat := by
    unfold selectVersionsToDisable pySliceFrom
    rw [if_pos h0]
  refine ⟨?_, hsel, ?_⟩
  · rw [hsel, List.length_drop, (sortByTimeDesc_perm _).length_eq]
    rfl
  · unfold selectVersionNamesToDisable
    rw [hsel]
    exact keptCount_after_disable_eq l n.toNat hnd

/-- Witness for C3 at a concrete input: three ENABLED versions, retention
2 — one version is selected and two remain ENABLED. -/
theorem claim3_select_count_and_retention_witness :
    (selectVersionsToDisable 2 [(⟨"v1", SVState.ENABLED, 1⟩ : SecretVersion),
        ⟨"v2", SVState.ENABLED, 2⟩, ⟨"v3", SVState.ENABLED, 3⟩]).length
      = keptCountSV [(⟨"v1", SVState.ENABLED, 1⟩ : SecretVersion),
        ⟨"v2", SVState.ENABLED, 2⟩, ⟨"v3", SVState.ENABLED, 3⟩] - (2 : Int).toNat
    ∧ selectVersionsToDisable 2 [(⟨"v1", SVState.ENABLED, 1⟩ : SecretVersion),
        ⟨"v2", SVState.ENABLED, 2⟩, ⟨"v3", SVState.ENABLED, 3⟩]
      = (sortByTimeDesc (enabledVersions [(⟨"v1", SVState.ENABLED, 1⟩ : SecretVersion),
        ⟨"v2", SVState.ENABLED, 2⟩, ⟨"v3", SVState.ENABLED, 3⟩])).drop (2 : Int).toNat
    ∧ keptCountSV (applyDisables (selectVersionNamesToDisable 2
        [(⟨"v1", SVState.ENABLED, 1⟩ : SecretVersion),
        ⟨"v2", SVState.ENABLED, 2⟩, ⟨"v3", SVState.ENABLED, 3⟩])
        [(⟨"v1", SVState.ENABLED, 1⟩ : SecretVersion),
        ⟨"v2", SVState.ENABLED, 2⟩, ⟨"v3", SVState.ENABLED, 3⟩])
      = min (keptCountSV [(⟨"v1", SVState.ENABLED, 1⟩ : SecretVersion),
        ⟨"v2", SVState.ENABLED, 2⟩, ⟨"v3", SVState.ENABLED, 3⟩]) (2 : Int).toNat :=
  claim3_select_count_and_retention 2 (by decide)
    [⟨"v1", SVState.ENABLED, 1⟩, ⟨"v2", SVState.ENABLED, 2⟩, ⟨"v3", SVState.ENABLED, 3⟩]
    (by decide)

/-! ## Claim C4 — per-item demotion failures -/

/-- Environment for the C4 counterexample: four ENABLED versions, all
calls succeed except disabling version `v2`. -/
def c4env : Env :=
  { bucketOk := true, getSecret := .found, createSecretOk := true,
    createKeyOk := true, addVersionOk := true,
    versions := [⟨"v1", .ENABLED, 1⟩, ⟨"v2", .ENABLED, 2⟩,
                 ⟨"v3", .ENABLED, 3⟩, ⟨"v4", .ENABLED, 4⟩],
    keys := [], disableOk := fun s => !(s == "v2"), updateOk := fun _ => true }

/-- Claim C4 is false as stated for `app.py`: versions `v2` and `v1` are
selected at retention 2; the disable of `v2` fails, the exception
propagates out of the unguarded loop, `v1` is never attempted, and the
run exits 1 instead of completing and reporting success. -/
theorem claim4_counterexample :
    selectVersionNamesToDisable 2 c4env.versions = ["v2", "v1"]
    ∧ (mainProd 2 c4env (some "sa")).2 = 1
    ∧ Call.disableVersion "v1" ∉ (mainProd 2 c4env (some "sa")).1 := by
  decide

/-- Claim C4 (amended): only `app-dev.py`'s secret-version disable loop
guards each call individually — every selected version receives a disable
request whatever the individual outcomes, and the step always completes
successfully.  (In `app.py`'s disable loop and in the key cleanup of both
variants, an individual failure propagates and aborts the pipeline, as
the counterexample shows.) -/
theorem claim4_dev_disable_continues (n : Int) (env : Env) :
    (disableOldSecretVersionsDev n env).2 = true
    ∧ (disableOldSecretVersionsDev n env).1
        = Call.listVersions ::
          ((selectVersionsToDisableDev n env.versions).map (fun v => v.name)).map
            Call.disableVersion :=
  ⟨rfl, rfl⟩

/-! ## Claim C5 — non-positive retention -/

/-- Environment for the C5 counterexample: two ENABLED versions, every
external call succeeds, retention parameter 0. -/
def c5env : Env :=
  { bucketOk := true, getSecret := .found, createSecretOk := true,
    createKeyOk := true, addVersionOk := true,
    versions := [⟨"v1", .ENABLED, 1⟩, ⟨"v2", .ENABLED, 2⟩],
    keys := [], disableOk := fun _ => true, updateOk := fun _ => true }

/-- Claim C5 is false: retention 0 raises no InvalidParameter error; the
selection proceeds, picks every ENABLED version, and the whole `app.py`
run completes with exit code 0. -/
theorem claim5_counterexample :
    selectVersionNamesToDisable 0 c5env.versions = ["v2", "v1"]
    ∧ (mainProd 0 c5env (some "sa")).2 = 0 := by
  decide

/-- Claim C5 (amended): a non-positive retention parameter is never
validated: the selection is a total function and with retention 0 it
selects every ENABLED version (the whole descending-sorted kept list)
for disabling instead of failing. -/
theorem claim5_zero_retention_disables_all (l : List SecretVersion) :
    selectVersionsToDisable 0 l = sortByTimeDesc (enabledVersions l) := by
  unfold selectVersionsToDisable pySliceFrom
  simp

/-! ## Claim C6 — swallowed lookup errors -/

/-- Environment for the C6 counterexample: the secret-existence lookup
fails with a permission error; creating the secret succeeds. -/
def c6env : Env :=
  { bucketOk := true, getSecret := .permError, createSecretOk := true,
    createKeyOk := true, addVersionOk := true,
    versions := [], keys := [], disableOk := fun _ => true, updateOk := fun _ => true }

/-- Claim C6 is false: a permission-error failure of the secret lookup is
consumed by the bare `except Exception` handler and triggers a create,
and the step reports success — the error never surfaces. -/
theorem claim6_counterexample :
    ensureSecretExists c6env = ([Call.getSecret, Call.createSecret], true) := by
  decide

/-- Claim C6 (amended): any failure of the secret-existence lookup —
including a permission error, not just absence — is consumed and triggers
a create, whose own outcome then decides the step. -/
theorem claim6_lookup_failure_triggers_create (env : Env)
    (h : env.getSecret = LookupResult.permError) :
    Call.createSecret ∈ (ensureSecretExists env).1
    ∧ (ensureSecretExists env).2 = env.createSecretOk := by
  unfold ensureSecretExists
  rw [h]
  exact ⟨by simp, rfl⟩

/-- Witness for the amended C6 at a concrete environment. -/
theorem claim6_lookup_failure_triggers_create_witness :
    Call.createSecret ∈ (ensureSecretExists c6env).1
    ∧ (ensureSecretExists c6env).2 = c6env.createSecretOk :=
  claim6_lookup_failure_triggers_create c6env rfl

/-! ## Claim C7 — missing service-account configuration -/

/-- Environment for the C7 counterexample: every external call succeeds. -/
def c7env : Env :=
  { bucketOk := true, getSecret := .found, createSecretOk := true,
    createKeyOk := true, addVersionOk := true,
    versions := [⟨"v1", .ENABLED, 1⟩], keys := [⟨"k1", "ACTIVE", 1⟩],
    disableOk := fun _ => true, updateOk := fun _ => true }

/-- Claim C7 is false for `app-dev.py`: with `SERVICE_ACCOUNT_EMAIL`
unset the dev variant does not abort — it runs the pipeline, issues
mutating calls, and exits 0. -/
theorem claim7_counterexample :
    (mainDev "proj" none 2 c7env).2 = 0
    ∧ (mainDev "proj" none 2 c7env).1.filter (fun c => c.isMutation) ≠ [] := by
  decide

/-- Claim C7 (amended): `app.py` aborts before any external call and
exits 1 when `SERVICE_ACCOUNT_EMAIL` is unset; `app-dev.py` instead
derives the default `hmac-rotator@<project>.iam.gserviceaccount.com`
and proceeds with the pipeline. -/
theorem claim7_prod_aborts_dev_derives (n : Int) (env : Env) (pid : String) :
    mainProd n env none = ([], 1)
    ∧ resolveServiceAccountDev pid none
        = "hmac-rotator@" ++ pid ++ ".iam.gserviceaccount.com" :=
  ⟨rfl, rfl⟩

/-! ## Claim C8 — reachability check before mutations -/

/-- Environment for the C8 counterexample: every external call succeeds. -/
def c8env : Env :=
  { bucketOk := true, getSecret := .found, createSecretOk := true,
    createKeyOk := true, addVersionOk := true,
    versions := [], keys := [], disableOk := fun _ => true, updateOk := fun _ => true }

/-- Claim C8 is false for `app.py`: its pipeline issues mutating calls
without ever performing a reachability probe — no probe call appears in
the trace while mutations do. -/
theorem claim8_counterexample :
    (rotateProd 2 c8env).1.filter (fun c => c == Call.probeBucket) = []
    ∧ (rotateProd 2 c8env).1.filter (fun c => c.isMutation) ≠ [] := by
  decide

/-- Claim C8 (amended): only `app-dev.py` performs the reachability
check; there it runs first, and on failure the pipeline aborts with a
nonzero exit having issued the probe and nothing else — in particular
zero mutating calls. -/
theorem claim8_dev_probe_gates_mutations (n : Int) (env : Env) (pid sa : String)
    (h : env.bucketOk = false) :
    (rotateDev n env).1 = [Call.probeBucket]
    ∧ (rotateDev n env).1.filter (fun c => c.isMutation) = []
    ∧ (mainDev pid (some sa) n env).2 = 1 := by
  have hr : rotateDev n env = ([Call.probeBucket], false) := by
    unfold rotateDev
    rw [h]
    rfl
  refine ⟨by rw [hr], by rw [hr]; rfl, ?_⟩
  unfold mainDev
  rw [hr]
  rfl

/-- Witness for the amended C8 at a concrete environment whose bucket
probe fails. -/
theorem claim8_dev_probe_gates_mutations_witness :
    (rotateDev 2 { c8env with bucketOk := false }).1 = [Call.probeBucket]
    ∧ (rotateDev 2 { c8env with bucketOk := false }).1.filter
        (fun c => c.isMutation) = []
    ∧ (mainDev "proj" (some "sa") 2 { c8env with bucketOk := false }).2 = 1 :=
  claim8_dev_probe_gates_mutations 2 { c8env with bucketOk := false } "proj" "sa" rfl

/-! ## Claim C9 — idempotence of the demotion steps -/

/-- When at most `N` versions are ENABLED, the selection is empty. -/
theorem select_eq_nil_of_le (n : Int) (hn : 0 ≤ n) (l : List SecretVersion)
    (hle : keptCountSV l ≤ n.toNat) : selectVersionsToDisable n l = [] := by
  unfold selectVersionsToDisable pySliceFrom
  rw [if_pos hn]
  apply List.drop_eq_nil_of_le
  rw [(sortByTimeDesc_perm _).length_eq]
  exact hle

/-- `inactivateIfSelected` does not change the creation time. -/
theorem inactivateIfSelected_timeCreated (sel : List String) (k : HmacKey) :
    (inactivateIfSelected sel k).timeCreated = k.timeCreated := by
  unfold inactivateIfSelected
  split <;> rfl

/-- Applying the key-cleanup demotions converges: running
`cleanup_old_hmac_keys` again on the resulting key set selects no key. -/
theorem cleanup_after_apply_eq_nil (keys : List HmacKey) :
    cleanupKeysToInactivate (applyKeyUpdates (cleanupDemotionIds keys) keys) = [] := by
  unfold applyKeyUpdates
  by_cases hlen : 1 < keys.length
  · unfold cleanupKeysToInactivate
    rw [if_pos (by simpa using hlen)]
    rw [sortKeysByTimeAsc_map _ (inactivateIfSelected_timeCreated _),
        ← map_dropLast']
    rw [List.filter_eq_nil_iff]
    intro a ha
    rcases List.mem_map.1 ha with ⟨k, hk, rfl⟩
    by_cases hc : (cleanupDemotionIds keys).contains k.accessId = true
    · unfold inactivateIfSelected
      rw [if_pos hc]
      simp
    · have hstate : ¬ (k.state == "ACTIVE") = true := by
        intro hact
        apply hc
        have hkm : k ∈ cleanupKeysToInactivate keys := by
          unfold cleanupKeysToInactivate
          rw [if_pos hlen]
          exact List.mem_filter.2 ⟨hk, hact⟩
        have hid : k.accessId ∈ cleanupDemotionIds keys :=
          List.mem_map_of_mem _ hkm
        simpa [List.elem_iff] using hid
      unfold inactivateIfSelected
      rw [if_neg hc]
      exact hstate
  · unfold cleanupKeysToInactivate
    rw [if_neg (by simpa using hlen)]

/-- Claim C9: with a non-negative retention, once at most `N` versions
are ENABLED the selection is empty; re-selecting after applying the
previous selection's disables is always empty; and re-running the key
cleanup on the post-cleanup key states issues no further update. -/
theorem claim9_demotion_idempotent (l : List SecretVersion) (n : Int) (hn : 0 ≤ n)
    (keys : List HmacKey) :
    (keptCountSV l ≤ n.toNat → selectVersionsToDisable n l = [])
    ∧ selectVersionsToDisable n (applyDisables (selectVersionNamesToDisable n l) l) = []
    ∧ cleanupKeysToInactivate (applyKeyUpdates (cleanupDemotionIds keys) keys) = [] := by
  refine ⟨fun hle => select_eq_nil_of_le n hn l hle, ?_, cleanup_after_apply_eq_nil keys⟩
  have hsel : selectVersionNamesToDisable n l
      = ((sortByTimeDesc (enabledVersions l)).drop n.toNat).map (fun v => v.name) := by
    unfold selectVersionNamesToDisable selectVersionsToDisable pySliceFrom
    rw [if_pos hn]
  apply select_eq_nil_of_le n hn
  rw [hsel]
  exact keptCount_after_disable_le l n.toNat

/-- Witness for C9 at a concrete input: two ENABLED versions at retention
2 select nothing; after applying the (empty) selection nothing more is
selected; cleanup of the post-cleanup key states selects nothing. -/
theorem claim9_demotion_idempotent_witness :
    (keptCountSV [(⟨"v1", SVState.ENABLED, 1⟩ : SecretVersion), ⟨"v2", SVState.ENABLED, 2⟩]
        ≤ (2 : Int).toNat →
      selectVersionsToDisable 2
        [(⟨"v1", SVState.ENABLED, 1⟩ : SecretVersion), ⟨"v2", SVState.ENABLED, 2⟩] = [])
    ∧ selectVersionsToDisable 2
        (applyDisables (selectVersionNamesToDisable 2
          [(⟨"v1", SVState.ENABLED, 1⟩ : SecretVersion), ⟨"v2", SVState.ENABLED, 2⟩])
          [(⟨"v1", SVState.ENABLED, 1⟩ : SecretVersion), ⟨"v2", SVState.ENABLED, 2⟩]) = []
    ∧ cleanupKeysToInactivate (applyKeyUpdates
        (cleanupDemotionIds [(⟨"a", "ACTIVE", 1⟩ : HmacKey), ⟨"b", "ACTIVE", 2⟩])
        [(⟨"a", "ACTIVE", 1⟩ : HmacKey), ⟨"b", "ACTIVE", 2⟩]) = [] :=
  claim9_demotion_idempotent
    [⟨"v1", SVState.ENABLED, 1⟩, ⟨"v2", SVState.ENABLED, 2⟩] 2 (by decide)
    [⟨"a", "ACTIVE", 1⟩, ⟨"b", "ACTIVE", 2⟩]

/-! ## Claim C10 — demoted items are left untouched, no resurrection -/

/-- Claim C10: every version selected for disabling is currently ENABLED
(so DISABLED and DESTROYED versions never receive a disable request);
every key selected for the state update is currently ACTIVE (so INACTIVE
keys never receive an update request); and applying a demotion never
turns a non-ENABLED version ENABLED nor a non-ACTIVE key ACTIVE. -/
theorem claim10_no_resurrection :
    (∀ (n : Int) (l : List SecretVersion) (v : SecretVersion),
        v ∈ selectVersionsToDisable n l → v.state = SVState.ENABLED)
    ∧ (∀ (keys : List HmacKey) (k : HmacKey),
        k ∈ cleanupKeysToInactivate keys → k.state = "ACTIVE")
    ∧ (∀ (sel : List String) (v : SecretVersion),
        (disableIfSelected sel v).state = SVState.ENABLED → v.state = SVState.ENABLED)
    ∧ (∀ (sel : List String) (k : HmacKey),
        (inactivateIfSelected sel k).state = "ACTIVE" → k.state = "ACTIVE") := by
  refine ⟨?_, ?_, ?_, ?_⟩
  · intro n l v hv
    have hsort : v ∈ sortByTimeDesc (enabledVersions l) := by
      unfold selectVersionsToDisable pySliceFrom at hv
      split at hv
      · exact List.drop_subset _ _ hv
      · exact List.drop_subset _ _ hv
    have hmem : v ∈ enabledVersions l := (sortByTimeDesc_perm _).mem_iff.1 hsort
    have := List.of_mem_filter hmem
    simpa using this
  · intro keys k hk
    unfold cleanupKeysToInactivate at hk
    split at hk
    · have := List.of_mem_filter hk
      simpa using this
    · simp at hk
  · intro sel v h
    unfold disableIfSelected at h
    split at h
    · simp at h
    · exact h
  · intro sel k h
    unfold inactivateIfSelected at h
    split at h
    · simp at h
    · exact h

/-- Witness for C10: an unselected ENABLED version stays ENABLED. -/
theorem claim10_no_resurrection_witness :
    (⟨"v", SVState.ENABLED, 1⟩ : SecretVersion).state = SVState.ENABLED :=
  claim10_no_resurrection.2.2.1 [] ⟨"v", SVState.ENABLED, 1⟩ (by decide)
